import Mathlib

/-!
# Verification of the go-simplicity translation core

A shallow embedding of the Go → SimplicityHL transpiler
(`pkg/transpiler/transpiler.go`, `pkg/types/types.go`, and the compiler
orchestration / validator in `pkg/compiler`).  Pure Go functions become Lean
functions; Go's `(T, error)` returns become `Except String T`; Go `int64`
arithmetic is modelled as `Int` with explicit two's-complement wrapping.
Strings are ASCII-faithful (Go's Unicode case mapping and space classes agree
with the model on the ASCII range, which is the range the transpiler emits).
-/

namespace GoSimplicity

/-! ## Characters and strings -/

/-- Decimal digit character for a value `< 10` (models the digit emission of
`strconv.FormatInt` base 10). -/
def digitChar (n : Nat) : Char := Char.ofNat (48 + n)

/-- Value of a decimal digit character, `none` for non-digits
(models the per-character accept step of `strconv.ParseInt` base 10). -/
def digitVal (c : Char) : Option Nat :=
  if 48 ≤ c.toNat ∧ c.toNat ≤ 57 then some (c.toNat - 48) else none

/-- Left-to-right accumulation of decimal digits; `none` on a non-digit. -/
def parseDigitsAux : List Char → Nat → Option Nat
  | [], acc => some acc
  | c :: cs, acc =>
    match digitVal c with
    | some d => parseDigitsAux cs (acc * 10 + d)
    | none => none

/-- Parse a non-empty all-digit string to a `Nat`. -/
def parseDigits (l : List Char) : Option Nat :=
  match l with
  | [] => none
  | _ => parseDigitsAux l 0

/-- Fueled decimal printer (fuel ≥ number of digits suffices;
`natToChars` supplies `n + 1`, which always suffices). -/
def natToCharsAux : Nat → Nat → List Char
  | 0, _ => []
  | fuel + 1, n =>
    if n < 10 then [digitChar n]
    else natToCharsAux fuel (n / 10) ++ [digitChar (n % 10)]

/-- Decimal digits of `n`, most significant first. -/
def natToChars (n : Nat) : List Char := natToCharsAux (n + 1) n

/-- Models `strconv.FormatInt(v, 10)` (and `fmt.Sprintf("%d", v)`):
decimal representation with a leading `-` for negative values. -/
def formatInt64 (z : Int) : String :=
  if z < 0 then ⟨'-' :: natToChars z.natAbs⟩ else ⟨natToChars z.toNat⟩

/-- Models `strconv.ParseInt(s, 10, 64)` (and `strconv.Atoi` on 64-bit
platforms): optional sign, at least one digit, and a 64-bit range check.
Returns `none` where Go returns a non-nil error. -/
def parseInt64 (s : String) : Option Int :=
  match s.toList with
  | [] => none
  | c :: rest =>
    if c = '+' then
      (parseDigits rest).bind fun n =>
        if n ≤ 2 ^ 63 - 1 then some (n : Int) else none
    else if c = '-' then
      (parseDigits rest).bind fun n =>
        if n ≤ 2 ^ 63 then some (-(n : Int)) else none
    else
      (parseDigits (c :: rest)).bind fun n =>
        if n ≤ 2 ^ 63 - 1 then some (n : Int) else none

/-- Two's-complement wrap into the `int64` range, the semantics Go gives to
overflow of `+`, `-`, `*`, `/` on `int64`. -/
def wrap64 (z : Int) : Int :=
  (z + 2 ^ 63).emod (2 ^ 64) - 2 ^ 63

/-- Models `strconv.FormatBool`. -/
def formatBool (b : Bool) : String := if b then "true" else "false"

/-- ASCII lower-casing, models `strings.ToLower` on the ASCII range. -/
def lowerStr (s : String) : String := ⟨s.toList.map Char.toLower⟩

/-- ASCII upper-casing, models `strings.ToUpper` on the ASCII range. -/
def upperStr (s : String) : String := ⟨s.toList.map Char.toUpper⟩

/-- Does `pat` occur as a contiguous substring of `l`?
Models `strings.Contains` for a fixed non-empty pattern. -/
def containsSub (pat : List Char) : List Char → Bool
  | [] => pat.isEmpty
  | c :: rest => pat.isPrefixOf (c :: rest) || containsSub pat rest

/-- Models `t.toSnakeCase`: insert `_` before every interior ASCII upper-case
letter and lower-case all ASCII upper-case letters. -/
def snakeAux : Bool → List Char → List Char
  | _, [] => []
  | first, c :: rest =>
    let isUp := 65 ≤ c.toNat ∧ c.toNat ≤ 90
    let pre : List Char := if ¬first ∧ isUp then ['_'] else []
    let c' := if isUp then Char.ofNat (c.toNat - 65 + 97) else c
    pre ++ c' :: snakeAux false rest

def toSnakeCase (name : String) : String :=
  if name = "" then name else ⟨snakeAux true name.toList⟩

/-! ## The expression AST and the compile-time evaluator
(`pkg/transpiler/transpiler.go`: `evaluateExpression`, `evaluateBinaryExpr`,
`evaluateCallExpr`, `extractIdentifier`). -/

/-- The binary operators `evaluateBinaryExpr` switches on
(`token.ADD` … `token.EQL`); `otherOp` stands for every other `token.Token`
(including `token.NEQ`, which has no case in the switch). -/
inductive BinOp where
  | add | sub | mul | quo
  | gtr | lss | geq | leq | eql | neq
  | otherOp
deriving DecidableEq, Repr

/-- Unary operators: `token.NOT` is the only one `evaluateExpression`
handles; `otherUn` is any other. -/
inductive UnOp where
  | notOp | otherUn
deriving DecidableEq, Repr

/-- The `Fun` position of a call: an `*ast.Ident` or anything else. -/
inductive CallFn where
  | identFn (name : String)
  | otherFn
deriving DecidableEq, Repr

/-- Go expressions as far as the transpiler inspects them
(`*ast.BasicLit`, `*ast.BinaryExpr`, `*ast.CallExpr`, `*ast.UnaryExpr`,
`*ast.Ident`; `otherExpr` is every other `ast.Expr`). -/
inductive GoExpr where
  | basicLit (value : String)
  | binaryExpr (op : BinOp) (x y : GoExpr)
  | callExpr (fn : CallFn) (args : List GoExpr)
  | unaryExpr (op : UnOp) (x : GoExpr)
  | identE (name : String)
  | otherExpr

/-- Models `t.extractIdentifier`. -/
def extractIdentifier : GoExpr → String
  | .identE name => name
  | _ => ""

/-- The pure folding step of `evaluateBinaryExpr`, applied to the two
already-evaluated operands.  Mirrors the Go body: fold only when both
sub-evaluations returned without error AND both parse as 64-bit integers;
division by a zero value falls through; any unhandled operator
(notably `token.NEQ`) falls through to the literal `"true"`. -/
def foldBinary (op : BinOp) (l r : Except String String) : Except String String :=
  match l, r with
  | .ok leftv, .ok rightv =>
    match parseInt64 leftv, parseInt64 rightv with
    | some lv, some rv =>
      match op with
      | .add => .ok (formatInt64 (wrap64 (lv + rv)))
      | .sub => .ok (formatInt64 (wrap64 (lv - rv)))
      | .mul => .ok (formatInt64 (wrap64 (lv * rv)))
      | .quo => if rv ≠ 0 then .ok (formatInt64 (wrap64 (Int.tdiv lv rv))) else .ok "true"
      | .gtr => .ok (formatBool (decide (lv > rv)))
      | .lss => .ok (formatBool (decide (lv < rv)))
      | .geq => .ok (formatBool (decide (lv ≥ rv)))
      | .leq => .ok (formatBool (decide (lv ≤ rv)))
      | .eql => .ok (formatBool (decide (lv = rv)))
      | _ => .ok "true"
    | _, _ => .ok "true"
  | _, _ => .ok "true"

/-- Models `t.evaluateCallExpr`: the `basicswap` special case and the general
case both return the literal `"true"` with no error. -/
def evaluateCallExpr (fn : CallFn) (_args : List GoExpr) : Except String String :=
  match fn with
  | .identFn name => if lowerStr name = "basicswap" then .ok "true" else .ok "true"
  | .otherFn => .ok "true"

/-- Models `t.evaluateExpression`. -/
def evaluateExpression : GoExpr → Except String String
  | .basicLit v => .ok v
  | .binaryExpr op x y => foldBinary op (evaluateExpression x) (evaluateExpression y)
  | .callExpr fn args => evaluateCallExpr fn args
  | .unaryExpr u x =>
    match u with
    | .notOp =>
      match evaluateExpression x with
      | .ok operand => if operand = "true" then .ok "false" else .ok "true"
      | .error e => .error e
    | .otherUn => .ok "true"
  | .identE _ => .ok "true"
  | .otherExpr => .ok "true"

/-- Models `t.evaluateBinaryExpr` (evaluate both sides, then fold). -/
def evaluateBinaryExpr (op : BinOp) (x y : GoExpr) : Except String String :=
  foldBinary op (evaluateExpression x) (evaluateExpression y)

/-- Did this fallible computation succeed? -/
def isOkE (x : Except String String) : Bool :=
  match x with
  | .ok _ => true
  | .error _ => false

theorem foldBinary_isOk (op : BinOp) (l r : Except String String) :
    isOkE (foldBinary op l r) = true := by
  unfold foldBinary
  repeat' split
  all_goals rfl

/-- The expression evaluator never returns an error: its error branch is
unreachable. -/
theorem evaluateExpression_isOk : ∀ e : GoExpr, isOkE (evaluateExpression e) = true
  | .basicLit _ => rfl
  | .binaryExpr op x y => foldBinary_isOk op _ _
  | .callExpr fn _args => by
    cases fn with
    | identFn name =>
      simp only [evaluateExpression, evaluateCallExpr]
      split <;> rfl
    | otherFn => rfl
  | .unaryExpr .notOp x => by
    have h := evaluateExpression_isOk x
    revert h
    cases hx : evaluateExpression x with
    | ok v =>
      intro _
      simp only [evaluateExpression, hx]
      split <;> rfl
    | error e =>
      intro h
      simp [isOkE] at h
  | .unaryExpr .otherUn _ => rfl
  | .identE _ => rfl
  | .otherExpr => rfl

/-- The (always defined) string value an expression evaluates to. -/
def evalStr (e : GoExpr) : String := ((evaluateExpression e).toOption).getD "true"

theorem evaluateExpression_eq_ok (e : GoExpr) :
    evaluateExpression e = .ok (evalStr e) := by
  have h := evaluateExpression_isOk e
  cases hx : evaluateExpression e with
  | ok v => simp [evalStr, hx, Except.toOption]
  | error err => rw [hx] at h; simp [isOkE] at h

/-! ## The type mapper (`pkg/types/types.go`) -/

/-- The length position of an `*ast.ArrayType` as `evaluateArrayLength`
distinguishes it: absent (`Len == nil`, a slice), an integer basic literal,
an identifier, or any other expression (including non-INT literals). -/
inductive ArrLen where
  | nilLen
  | litInt (value : String)
  | identLen
  | otherLen
deriving DecidableEq

/-- The `X` position of an `*ast.SelectorExpr`: an identifier or not. -/
inductive SelX where
  | xIdent (name : String)
  | xOther
deriving DecidableEq

mutual
/-- Go type expressions as far as `MapGoType` inspects them
(`*ast.Ident`, `*ast.ArrayType`, `*ast.StructType`, `*ast.SelectorExpr`;
`otherT` is the default error case). -/
inductive GoType where
  | identT (name : String)
  | arrayT (len : ArrLen) (elt : GoType)
  | structT (fields : StructFields)
  | selectorT (x : SelX) (sel : String)
  | otherT

/-- The field list of a struct type: each field carries its name list
(empty for an anonymous field) and its type. -/
inductive StructFields where
  | nilF
  | consF (names : List String) (ty : GoType) (rest : StructFields)
end

/-- The `builtinTypes` table built by `NewTypeMapper`. -/
def builtinTypes : String → Option String
  | "bool" => some "bool"
  | "uint8" => some "u8"
  | "uint16" => some "u16"
  | "uint32" => some "u32"
  | "uint64" => some "u64"
  | "byte" => some "u8"
  | "Hash" => some "u256"
  | "Address" => some "u256"
  | "Pubkey" => some "u256"
  | "Signature" => some "[u8; 64]"
  | _ => none

/-- Models `tm.mapIdentType`: builtin lookup, unknown identifiers pass
through unchanged (never an error). -/
def mapIdentType (name : String) : String := (builtinTypes name).getD name

/-- Models `tm.evaluateArrayLength` (only called with a non-nil length). -/
def evaluateArrayLength : ArrLen → Except String Int
  | .nilLen => .error "unsupported array length expression"
  | .litInt s =>
    match parseInt64 s with
    | some n => .ok n
    | none => .error "invalid integer literal"
  | .identLen => .error "array length must be a literal integer"
  | .otherLen => .error "unsupported array length expression"

/-- Models `tm.mapSelectorType`. -/
def mapSelectorType (x : SelX) (sel : String) : Except String String :=
  match x with
  | .xIdent pkg =>
    if pkg = "bitcoin" then
      match sel with
      | "Hash" => .ok "u256"
      | "Address" => .ok "u256"
      | "Pubkey" => .ok "u256"
      | "Signature" => .ok "[u8; 64]"
      | "Amount" => .ok "u64"
      | _ => .error ("unsupported bitcoin type: " ++ sel)
    else .error ("unsupported qualified type: " ++ pkg ++ "." ++ sel)
  | .xOther => .error "unsupported selector expression"

mutual
/-- Models `tm.MapGoType` (dispatch) together with `tm.mapArrayType` and
`tm.mapStructType`. -/
def MapGoType : GoType → Except String String
  | .identT name => .ok (mapIdentType name)
  | .arrayT len elt =>
    match MapGoType elt with
    | .error e => .error ("failed to map array element type: " ++ e)
    | .ok elemType =>
      match len with
      | .nilLen => .error "slices are not supported, use fixed-size arrays"
      | len =>
        match evaluateArrayLength len with
        | .error e => .error ("failed to evaluate array length: " ++ e)
        | .ok n => .ok ("[" ++ elemType ++ "; " ++ formatInt64 n ++ "]")
  | .structT fields =>
    match fields with
    | .nilF => .ok "()"
    | fields =>
      match mapStructFieldTypes fields with
      | .error e => .error e
      | .ok fieldTypes =>
        match fieldTypes with
        | [ft] => .ok ("(" ++ ft ++ ",)")
        | _ => .ok ("(" ++ String.intercalate ", " fieldTypes ++ ")")
  | .selectorT x sel => mapSelectorType x sel
  | .otherT => .error "unsupported Go type"

/-- The field loop of `tm.mapStructType`: one tuple slot per field name
(one slot for an anonymous field). -/
def mapStructFieldTypes : StructFields → Except String (List String)
  | .nilF => .ok []
  | .consF names ty rest =>
    match MapGoType ty with
    | .error e => .error ("failed to map struct field type: " ++ e)
    | .ok ft =>
      match mapStructFieldTypes rest with
      | .error e => .error e
      | .ok fts => .ok ((if names.isEmpty then [ft] else names.map fun _ => ft) ++ fts)
end

/-! ## Bit widths (`GetBitSize`) -/

/-- ASCII white space, models `unicode.IsSpace` on the ASCII range
(as used by `strings.TrimSpace`). -/
def isSpaceGo (c : Char) : Bool :=
  c = ' ' || c = '\t' || c = '\n' || c = '\x0b' || c = '\x0c' || c = '\r'

/-- Models `strings.TrimSpace` (ASCII range). -/
def trimSpace (l : List Char) : List Char :=
  ((l.dropWhile isSpaceGo).reverse.dropWhile isSpaceGo).reverse

/-- Models `strings.Split(·, ";")`: split around every `';'`. -/
def splitSemi : List Char → List (List Char)
  | [] => [[]]
  | c :: rest =>
    if c = ';' then [] :: splitSemi rest
    else
      match splitSemi rest with
      | [] => [[c]]
      | h :: t => (c :: h) :: t

/-- The fixed width table of `GetBitSize`'s switch (`"()"` included), over
the string's character list. -/
def builtinBits : List Char → Option Int
  | ['b', 'o', 'o', 'l'] => some 1
  | ['u', '1'] => some 1
  | ['u', '2'] => some 2
  | ['u', '4'] => some 4
  | ['u', '8'] => some 8
  | ['u', '1', '6'] => some 16
  | ['u', '3', '2'] => some 32
  | ['u', '6', '4'] => some 64
  | ['u', '1', '2', '8'] => some 128
  | ['u', '2', '5', '6'] => some 256
  | ['(', ')'] => some 0
  | _ => none

/-- Fueled body of `tm.GetBitSize`; the fuel only bounds the recursion depth
(each recursive call is on a strictly shorter string) and `GetBitSize`
supplies enough of it.  `fuel = 0` is unreachable from `GetBitSize`.
The array branch multiplies in Go's 64-bit `int`, which wraps in two's
complement, hence the explicit `wrap64`. -/
def getBitSizeFuel : Nat → List Char → Int
  | 0, _ => 0
  | fuel + 1, l =>
    match builtinBits l with
    | some w => w
    | none =>
      match l with
      | [] => 0
      | c :: rest =>
        if c = '[' ∧ ';' ∈ l then
          match splitSemi rest.dropLast with
          | [p0, p1] =>
            match parseInt64 ⟨trimSpace p1⟩ with
            | some count => wrap64 (getBitSizeFuel fuel (trimSpace p0) * count)
            | none => 0
          | _ => 0
        else 0

/-- Models `tm.GetBitSize`. -/
def GetBitSize (s : String) : Int := getBitSizeFuel (s.length + 1) s.toList

/-- The one-step equation of the fueled body. -/
theorem getBitSizeFuel_succ (fuel : Nat) (l : List Char) :
    getBitSizeFuel (fuel + 1) l =
      match builtinBits l with
      | some w => w
      | none =>
        match l with
        | [] => 0
        | c :: rest =>
          if c = '[' ∧ ';' ∈ l then
            match splitSemi rest.dropLast with
            | [p0, p1] =>
              match parseInt64 ⟨trimSpace p1⟩ with
              | some count => wrap64 (getBitSizeFuel fuel (trimSpace p0) * count)
              | none => 0
            | _ => 0
          else 0 := rfl

theorem length_trimSpace_le (l : List Char) : (trimSpace l).length ≤ l.length := by
  unfold trimSpace
  calc ((l.dropWhile isSpaceGo).reverse.dropWhile isSpaceGo).reverse.length
      = ((l.dropWhile isSpaceGo).reverse.dropWhile isSpaceGo).length :=
        List.length_reverse _
    _ ≤ (l.dropWhile isSpaceGo).reverse.length := (List.dropWhile_sublist _).length_le
    _ = (l.dropWhile isSpaceGo).length := List.length_reverse _
    _ ≤ l.length := (List.dropWhile_sublist _).length_le

theorem length_le_of_mem_splitSemi :
    ∀ (l p : List Char), p ∈ splitSemi l → p.length ≤ l.length := by
  intro l
  induction l with
  | nil =>
    intro p h
    simp only [splitSemi, List.mem_singleton] at h
    simp [h]
  | cons c rest ih =>
    intro p h
    simp only [splitSemi] at h
    by_cases hc : c = ';'
    · rw [if_pos hc] at h
      rcases List.mem_cons.mp h with h | h
      · simp [h]
      · exact (ih p h).trans (Nat.le_succ _)
    · rw [if_neg hc] at h
      cases hsp : splitSemi rest with
      | nil =>
        rw [hsp] at h
        simp only [List.mem_singleton] at h
        simp [h, List.length_cons]
      | cons hd tl =>
        rw [hsp] at h
        rcases List.mem_cons.mp h with h | h
        · have hhd : hd ∈ splitSemi rest := by rw [hsp]; exact List.mem_cons_self _ _
          have := ih hd hhd
          simp only [h, List.length_cons]
          omega
        · have hp : p ∈ splitSemi rest := by rw [hsp]; exact List.mem_cons_of_mem _ h
          exact (ih p hp).trans (Nat.le_succ _)

/-- The fuel is irrelevant once it exceeds the string length. -/
theorem getBitSizeFuel_mono :
    ∀ (f g : Nat) (l : List Char), l.length < f → l.length < g →
      getBitSizeFuel f l = getBitSizeFuel g l := by
  intro f
  induction f with
  | zero => intro g l hf _; omega
  | succ f ih =>
    intro g l hf hg
    match g, hg with
    | g + 1, hg =>
      cases hb : builtinBits l with
      | some w => simp only [getBitSizeFuel, hb]
      | none =>
        cases l with
        | nil => simp only [getBitSizeFuel, hb]
        | cons c rest =>
          simp only [getBitSizeFuel, hb]
          by_cases hpre : c = '[' ∧ ';' ∈ c :: rest
          · rw [if_pos hpre, if_pos hpre]
            cases hsp : splitSemi rest.dropLast with
            | nil => simp only [hsp]
            | cons p0 t0 =>
              cases t0 with
              | nil => simp only [hsp]
              | cons p1 t1 =>
                cases t1 with
                | cons _ _ => simp only [hsp]
                | nil =>
                  simp only [hsp]
                  cases hpc : parseInt64 ⟨trimSpace p1⟩ with
                  | none => simp only [hpc]
                  | some count =>
                    simp only [hpc]
                    have hp0 : p0 ∈ splitSemi rest.dropLast := by
                      rw [hsp]; exact List.mem_cons_self _ _
                    have h1 : (trimSpace p0).length ≤ rest.dropLast.length :=
                      (length_trimSpace_le p0).trans
                        (length_le_of_mem_splitSemi _ _ hp0)
                    have h2 : rest.dropLast.length ≤ rest.length :=
                      (List.dropLast_sublist rest).length_le
                    have hff : (trimSpace p0).length < f := by
                      simp only [List.length_cons] at hf; omega
                    have hgg : (trimSpace p0).length < g := by
                      simp only [List.length_cons] at hg; omega
                    rw [ih g (trimSpace p0) hff hgg]
          · rw [if_neg hpre, if_neg hpre]

/-! ## Support lemmas: decimal print/parse round trip, splitting, trimming -/

theorem digitChar_bounds {m : Nat} (h : m < 10) :
    48 ≤ (digitChar m).toNat ∧ (digitChar m).toNat ≤ 57 := by
  interval_cases m <;> decide

theorem digitVal_digitChar {m : Nat} (h : m < 10) : digitVal (digitChar m) = some m := by
  interval_cases m <;> rfl

theorem parseDigitsAux_append (l1 l2 : List Char) (acc : Nat) :
    parseDigitsAux (l1 ++ l2) acc =
      match parseDigitsAux l1 acc with
      | some v => parseDigitsAux l2 v
      | none => none := by
  induction l1 generalizing acc with
  | nil => rfl
  | cons c cs ih =>
    simp only [List.cons_append, parseDigitsAux]
    cases digitVal c with
    | some d => exact ih _
    | none => rfl

theorem mem_natToCharsAux_digit (f : Nat) :
    ∀ (n : Nat) (c : Char), c ∈ natToCharsAux f n →
      48 ≤ c.toNat ∧ c.toNat ≤ 57 := by
  induction f with
  | zero => intro n c h; simp [natToCharsAux] at h
  | succ f ih =>
    intro n c h
    by_cases hn : n < 10
    · simp only [natToCharsAux, if_pos hn, List.mem_singleton] at h
      subst h
      exact digitChar_bounds hn
    · simp only [natToCharsAux, if_neg hn, List.mem_append,
        List.mem_singleton] at h
      rcases h with h | h
      · exact ih _ _ h
      · subst h
        exact digitChar_bounds (Nat.mod_lt _ (by omega))

theorem natToCharsAux_ne_nil (f n : Nat) (hf : 0 < f) : natToCharsAux f n ≠ [] := by
  match f, hf with
  | f + 1, _ =>
    by_cases hn : n < 10
    · simp [natToCharsAux, hn]
    · simp [natToCharsAux, hn]

theorem parseDigitsAux_natToCharsAux (f : Nat) :
    ∀ (n acc : Nat), n < f →
      parseDigitsAux (natToCharsAux f n) acc =
        some (acc * 10 ^ (natToCharsAux f n).length + n) := by
  induction f with
  | zero => intro n acc h; omega
  | succ f ih =>
    intro n acc h
    by_cases hn : n < 10
    · simp only [natToCharsAux, if_pos hn, parseDigitsAux, digitVal_digitChar hn,
        List.length_singleton, pow_one]
    · have h10 : 10 ≤ n := Nat.le_of_not_lt hn
      have hdivn : n / 10 < n := Nat.div_lt_self (by omega) (by omega)
      have hdiv : n / 10 < f := by omega
      simp only [natToCharsAux, if_neg hn]
      rw [parseDigitsAux_append, ih (n / 10) acc hdiv]
      simp only [parseDigitsAux, digitVal_digitChar (Nat.mod_lt n (by omega)),
        List.length_append, List.length_cons, List.length_nil]
      congr 1
      have hmod : n / 10 * 10 + n % 10 = n := by omega
      calc (acc * 10 ^ (natToCharsAux f (n / 10)).length + n / 10) * 10 + n % 10
          = acc * (10 ^ (natToCharsAux f (n / 10)).length * 10) +
              (n / 10 * 10 + n % 10) := by ring
        _ = acc * 10 ^ ((natToCharsAux f (n / 10)).length + (0 + 1)) + n := by
              rw [hmod]; ring

theorem parseDigits_natToChars (n : Nat) : parseDigits (natToChars n) = some n := by
  have h := parseDigitsAux_natToCharsAux (n + 1) n 0 (Nat.lt_succ_self n)
  have hne : natToChars n ≠ [] := natToCharsAux_ne_nil _ _ (Nat.succ_pos n)
  unfold parseDigits
  cases hl : natToChars n with
  | nil => exact absurd hl hne
  | cons c cs =>
    dsimp only
    rw [← hl]
    simpa [natToChars] using h

theorem parseInt64_range {s : String} {n : Int} (h : parseInt64 s = some n) :
    -(2 ^ 63) ≤ n ∧ n ≤ 2 ^ 63 - 1 := by
  unfold parseInt64 at h
  cases hsl : s.toList with
  | nil => rw [hsl] at h; simp at h
  | cons c rest =>
    rw [hsl] at h
    dsimp only at h
    by_cases hp : c = '+'
    · rw [if_pos hp] at h
      cases hd : parseDigits rest with
      | none => rw [hd] at h; simp [Option.bind] at h
      | some m =>
        rw [hd] at h
        simp only [Option.bind] at h
        split at h
        · cases h; constructor <;> omega
        · simp at h
    · rw [if_neg hp] at h
      by_cases hm : c = '-'
      · rw [if_pos hm] at h
        cases hd : parseDigits rest with
        | none => rw [hd] at h; simp [Option.bind] at h
        | some m =>
          rw [hd] at h
          simp only [Option.bind] at h
          split at h
          · cases h; constructor <;> omega
          · simp at h
      · rw [if_neg hm] at h
        cases hd : parseDigits (c :: rest) with
        | none => rw [hd] at h; simp [Option.bind] at h
        | some m =>
          rw [hd] at h
          simp only [Option.bind] at h
          split at h
          · cases h; constructor <;> omega
          · simp at h

theorem parseInt64_formatInt64 {z : Int} (h1 : -(2 ^ 63) ≤ z) (h2 : z ≤ 2 ^ 63 - 1) :
    parseInt64 (formatInt64 z) = some z := by
  by_cases hz : z < 0
  · have hform : formatInt64 z = ⟨'-' :: natToChars z.natAbs⟩ := by
      simp [formatInt64, hz]
    rw [hform]
    have hlist : (⟨'-' :: natToChars z.natAbs⟩ : String).toList =
        '-' :: natToChars z.natAbs := rfl
    unfold parseInt64
    rw [hlist]
    dsimp only
    have hplus : ('-' : Char) ≠ '+' := by decide
    rw [if_neg hplus, if_pos rfl, parseDigits_natToChars]
    have hrange : z.natAbs ≤ 2 ^ 63 := by omega
    simp only [Option.bind, if_pos hrange]
    congr 1
    omega
  · have hform : formatInt64 z = ⟨natToChars z.toNat⟩ := by
      simp [formatInt64, hz]
    rw [hform]
    cases hl : natToChars z.toNat with
    | nil => exact absurd hl (natToCharsAux_ne_nil _ _ (Nat.succ_pos _))
    | cons c cs =>
      have hc : 48 ≤ c.toNat ∧ c.toNat ≤ 57 := by
        apply mem_natToCharsAux_digit (z.toNat + 1) z.toNat
        rw [show natToCharsAux (z.toNat + 1) z.toNat = natToChars z.toNat from rfl, hl]
        exact List.mem_cons_self _ _
      have hlist : (⟨c :: cs⟩ : String).toList = c :: cs := rfl
      unfold parseInt64
      rw [hlist]
      dsimp only
      have hplus : c ≠ '+' := by
        intro hcc; subst hcc; revert hc; decide
      have hminus : c ≠ '-' := by
        intro hcc; subst hcc; revert hc; decide
      rw [if_neg hplus, if_neg hminus, ← hl, parseDigits_natToChars]
      have hrange : z.toNat ≤ 2 ^ 63 - 1 := by omega
      simp only [Option.bind, if_pos hrange]
      congr 1
      omega

theorem splitSemi_of_not_mem {l : List Char} (h : ';' ∉ l) : splitSemi l = [l] := by
  induction l with
  | nil => rfl
  | cons c rest ih =>
    have hc : ¬c = ';' := fun hc => h (hc ▸ List.mem_cons_self c rest)
    have hr : ';' ∉ rest := fun hr => h (List.mem_cons_of_mem c hr)
    simp only [splitSemi, if_neg hc, ih hr]

theorem splitSemi_append {l1 : List Char} (l2 : List Char) (h : ';' ∉ l1) :
    splitSemi (l1 ++ ';' :: l2) = l1 :: splitSemi l2 := by
  induction l1 with
  | nil => simp [splitSemi]
  | cons c rest ih =>
    have hc : ¬c = ';' := fun hc => h (hc ▸ List.mem_cons_self c rest)
    have hr : ';' ∉ rest := fun hr => h (List.mem_cons_of_mem c hr)
    simp only [List.cons_append, splitSemi, if_neg hc, List.append_eq, ih hr]

theorem trimSpace_cons_space (l : List Char) : trimSpace (' ' :: l) = trimSpace l := by
  unfold trimSpace
  rw [List.dropWhile_cons_of_pos (by decide)]

theorem trimSpace_eq_self {l : List Char} (h : ∀ c ∈ l, isSpaceGo c = false) :
    trimSpace l = l := by
  have h1 : l.dropWhile isSpaceGo = l := by
    cases l with
    | nil => rfl
    | cons c rest =>
      exact List.dropWhile_cons_of_neg (by simp [h c (List.mem_cons_self c rest)])
  have h2 : l.reverse.dropWhile isSpaceGo = l.reverse := by
    cases hr : l.reverse with
    | nil => rfl
    | cons c rest =>
      have hc : c ∈ l := by
        rw [← List.mem_reverse, hr]; exact List.mem_cons_self _ _
      rw [List.dropWhile_cons_of_neg (by simp [h c hc])]
  unfold trimSpace
  rw [h1, h2, List.reverse_reverse]

theorem isSpaceGo_false_of_digit {c : Char} (h : 48 ≤ c.toNat ∧ c.toNat ≤ 57) :
    isSpaceGo c = false := by
  have h32 : c ≠ ' ' := by intro hc; subst hc; revert h; decide
  have h9 : c ≠ '\t' := by intro hc; subst hc; revert h; decide
  have h10 : c ≠ '\n' := by intro hc; subst hc; revert h; decide
  have h11 : c ≠ '\x0b' := by intro hc; subst hc; revert h; decide
  have h12 : c ≠ '\x0c' := by intro hc; subst hc; revert h; decide
  have h13 : c ≠ '\r' := by intro hc; subst hc; revert h; decide
  simp [isSpaceGo, h32, h9, h10, h11, h12, h13]

theorem mem_formatInt64_data {z : Int} {c : Char} (h : c ∈ (formatInt64 z).data) :
    c = '-' ∨ (48 ≤ c.toNat ∧ c.toNat ≤ 57) := by
  unfold formatInt64 at h
  by_cases hz : z < 0
  · rw [if_pos hz] at h
    have h' : c ∈ '-' :: natToChars z.natAbs := h
    rcases List.mem_cons.mp h' with h'' | h''
    · exact Or.inl h''
    · exact Or.inr (mem_natToCharsAux_digit _ _ _ h'')
  · rw [if_neg hz] at h
    have h' : c ∈ natToChars z.toNat := h
    exact Or.inr (mem_natToCharsAux_digit _ _ _ h')

/-! ## Analyzer records and statements
(`pkg/transpiler/transpiler.go`: `WitnessValue`, `Constant`, `Function`,
`Parameter`, and the `analyze*` functions). -/

structure WitnessValue where
  name : String
  type : String
  value : String
deriving DecidableEq

structure Constant where
  name : String
  type : String
  value : String
deriving DecidableEq

structure Parameter where
  name : String
  type : String
deriving DecidableEq

structure Function where
  name : String
  parameters : List Parameter
  returnType : String
  body : String
deriving DecidableEq

/-- A `*ast.GenDecl`'s token as far as the transpiler checks it
(`token.VAR`, `token.CONST`, anything else). -/
inductive GenTok where
  | varTok | constTok | otherGenTok
deriving DecidableEq

/-- A `*ast.AssignStmt`'s token (`:=`, `=`, compound).  `analyzeMainFunction`
never inspects it. -/
inductive AsgTok where
  | defineTok | assignTok | otherAsgTok
deriving DecidableEq

/-- An `*ast.ValueSpec`: names, optional type annotation, initializers. -/
structure ValueSpec where
  names : List String
  type : Option GoType
  values : List GoExpr

/-- Statements as far as the transpiler's two body scans inspect them
(`*ast.DeclStmt` wrapping a `GenDecl`, `*ast.AssignStmt`, `*ast.ReturnStmt`;
everything else is skipped). -/
inductive Stmt where
  | declStmt (tok : GenTok) (specs : List ValueSpec)
  | assignStmt (tok : AsgTok) (lhs rhs : List GoExpr)
  | returnStmt (results : List GoExpr)
  | otherStmt

/-- One parameter field of a function signature: a name group sharing a
type (empty name list for an anonymous parameter). -/
structure FieldGroup where
  names : List String
  type : GoType

/-- Top-level declarations as `analyzeCode` dispatches on them. -/
inductive Decl where
  | funcDecl (name : String) (params : List FieldGroup) (results : List GoType)
      (body : List Stmt)
  | genDecl (tok : GenTok) (specs : List ValueSpec)
  | otherDecl

/-- The `for i, name := range valueSpec.Names` loop of `analyzeMainFunction`
restricted to the pairs with `i < len(valueSpec.Values)` (the zip). -/
def analyzeVarNames (ty : Option GoType) (ws : List WitnessValue) :
    List (String × GoExpr) → Except String (List WitnessValue)
  | [] => .ok ws
  | (name, v) :: rest =>
    match evaluateExpression v with
    | .error e => .error ("failed to evaluate expression for " ++ name ++ ": " ++ e)
    | .ok value =>
      match ty with
      | none =>
        analyzeVarNames ty (ws ++ [⟨toSnakeCase name, "u64", value⟩]) rest
      | some t =>
        match MapGoType t with
        | .error e => .error e
        | .ok st => analyzeVarNames ty (ws ++ [⟨toSnakeCase name, st, value⟩]) rest

/-- The spec loop of the `*ast.DeclStmt` branch of `analyzeMainFunction`. -/
def analyzeMainSpecs (ws : List WitnessValue) :
    List ValueSpec → Except String (List WitnessValue)
  | [] => .ok ws
  | spec :: rest =>
    match analyzeVarNames spec.type ws (spec.names.zip spec.values) with
    | .error e => .error e
    | .ok ws' => analyzeMainSpecs ws' rest

/-- One iteration of `analyzeMainFunction`'s statement loop.  Note the
`*ast.AssignStmt` branch never looks at the assignment token. -/
def analyzeMainStmt (ws : List WitnessValue) : Stmt → Except String (List WitnessValue)
  | .declStmt .varTok specs => analyzeMainSpecs ws specs
  | .declStmt _ _ => .ok ws
  | .assignStmt _ lhs rhs =>
    match lhs, rhs with
    | [.identE name], [v] =>
      match evaluateExpression v with
      | .error e => .error ("failed to evaluate assignment for " ++ name ++ ": " ++ e)
      | .ok value => .ok (ws ++ [⟨toSnakeCase name, "auto", value⟩])
    | _, _ => .ok ws
  | .returnStmt _ => .ok ws
  | .otherStmt => .ok ws

def analyzeMainStmts (ws : List WitnessValue) :
    List Stmt → Except String (List WitnessValue)
  | [] => .ok ws
  | s :: rest =>
    match analyzeMainStmt ws s with
    | .error e => .error e
    | .ok ws' => analyzeMainStmts ws' rest

/-- Models `t.analyzeMainFunction` over the entry function's body list,
appending to the already-recorded witnesses. -/
def analyzeMainFunction (ws : List WitnessValue) (body : List Stmt) :
    Except String (List WitnessValue) :=
  analyzeMainStmts ws body

/-- The synthesized two-arm match body emitted for a strictly-greater-than
return comparison. -/
def matchBodyStr (name : String) : String :=
  "    match " ++ name ++ " \x7b\n" ++ "        0 => false,\n" ++
    "        _ => true,\n" ++ "    \x7d"

/-- Models `t.analyzeFunctionBody` (which never returns an error): scan the
statements in order; the first return statement with exactly one result
either yields a match body (greater-than comparison whose left side is an
identifier), or the identifier's snake-case name (bare identifier result),
or lets the scan continue; the fallback body is `"true"`. -/
def analyzeFunctionBody : List Stmt → String
  | [] => "true"
  | s :: rest =>
    match s with
    | .returnStmt [r] =>
      match r with
      | .binaryExpr .gtr x _ =>
        if extractIdentifier x ≠ "" then
          matchBodyStr (toSnakeCase (extractIdentifier x))
        else analyzeFunctionBody rest
      | .identE name => toSnakeCase name
      | _ => analyzeFunctionBody rest
    | _ => analyzeFunctionBody rest

/-- The parameter loop of `t.analyzeFunction`: one `Parameter` per name of
each field group (an anonymous group contributes none). -/
def mapParamFields (acc : List Parameter) :
    List FieldGroup → Except String (List Parameter)
  | [] => .ok acc
  | fg :: rest =>
    match MapGoType fg.type with
    | .error e => .error e
    | .ok st =>
      mapParamFields (acc ++ fg.names.map fun n => ⟨toSnakeCase n, st⟩) rest

/-- Models `t.analyzeFunction` for a non-entry function declaration. -/
def analyzeFunction (name : String) (params : List FieldGroup)
    (results : List GoType) (body : List Stmt) : Except String Function :=
  match mapParamFields [] params with
  | .error e => .error e
  | .ok ps =>
    match results with
    | [] => .ok ⟨toSnakeCase name, ps, "", analyzeFunctionBody body⟩
    | rt :: _ =>
      match MapGoType rt with
      | .error e => .error e
      | .ok rts => .ok ⟨toSnakeCase name, ps, rts, analyzeFunctionBody body⟩

/-- The name loop of `t.analyzeConstants` (pairs with an initializer). -/
def analyzeConstNames (ty : Option GoType) (cs : List Constant) :
    List (String × GoExpr) → Except String (List Constant)
  | [] => .ok cs
  | (name, v) :: rest =>
    match evaluateExpression v with
    | .error e => .error e
    | .ok value =>
      match ty with
      | none =>
        analyzeConstNames ty (cs ++ [⟨upperStr (toSnakeCase name), "u64", value⟩]) rest
      | some t =>
        match MapGoType t with
        | .error e => .error e
        | .ok st =>
          analyzeConstNames ty (cs ++ [⟨upperStr (toSnakeCase name), st, value⟩]) rest

/-- Models `t.analyzeConstants` over a const declaration's specs. -/
def analyzeConstSpecs (cs : List Constant) :
    List ValueSpec → Except String (List Constant)
  | [] => .ok cs
  | spec :: rest =>
    match analyzeConstNames spec.type cs (spec.names.zip spec.values) with
    | .error e => .error e
    | .ok cs' => analyzeConstSpecs cs' rest

/-- The three record lists `analyzeCode` accumulates. -/
structure AnalyzeResult where
  witnessValues : List WitnessValue
  constants : List Constant
  functions : List Function
deriving DecidableEq

/-- One iteration of `analyzeCode`'s declaration loop. -/
def analyzeDecl (acc : AnalyzeResult) : Decl → Except String AnalyzeResult
  | .funcDecl name params results body =>
    if name = "main" then
      match analyzeMainFunction acc.witnessValues body with
      | .error e => .error e
      | .ok ws => .ok { acc with witnessValues := ws }
    else
      match analyzeFunction name params results body with
      | .error e => .error e
      | .ok f => .ok { acc with functions := acc.functions ++ [f] }
  | .genDecl tok specs =>
    if tok = .constTok then
      match analyzeConstSpecs acc.constants specs with
      | .error e => .error e
      | .ok cs => .ok { acc with constants := cs }
    else .ok acc
  | .otherDecl => .ok acc

def analyzeDecls (acc : AnalyzeResult) : List Decl → Except String AnalyzeResult
  | [] => .ok acc
  | d :: rest =>
    match analyzeDecl acc d with
    | .error e => .error e
    | .ok acc' => analyzeDecls acc' rest

/-- Models `t.analyzeCode` over a file's top-level declarations. -/
def analyzeCode (decls : List Decl) : Except String AnalyzeResult :=
  analyzeDecls ⟨[], [], []⟩ decls

/-! ## Code generation (`generateCode`, `generateFunction`,
`generateMainFunction`, `writeLine`). -/

/-- The deferred-type inference of the witness block: boolean literals
become `bool`, integer literals `u64`, anything else defaults to `bool`. -/
def inferWitnessType (w : WitnessValue) : String :=
  if w.type = "auto" then
    if w.value = "true" ∨ w.value = "false" then "bool"
    else if (parseInt64 w.value).isSome then "u64"
    else "bool"
  else w.type

def witnessLine (w : WitnessValue) : String :=
  "    const " ++ upperStr w.name ++ ": " ++ inferWitnessType w ++ " = " ++
    w.value ++ ";"

def constantLine (c : Constant) : String :=
  "    const " ++ c.name ++ ": " ++ c.type ++ " = " ++ c.value ++ ";"

/-- Models `t.generateFunction` (as the list of lines it writes). -/
def functionLines (f : Function) : List String :=
  let params := f.parameters.map fun p => p.name ++ ": " ++ p.type
  let sig := "(" ++ String.intercalate ", " params ++ ")" ++
    (if f.returnType ≠ "" then " -> " ++ f.returnType else "")
  ["fn " ++ f.name ++ sig ++ " \x7b", "    " ++ f.body, "\x7d", ""]

/-- The effective type `generateMainFunction` gives a witness when
collecting call arguments (`auto` with a boolean-literal value counts as
`bool`). -/
def isBoolWitness (w : WitnessValue) : Bool :=
  (if w.type = "auto" ∧ (w.value = "true" ∨ w.value = "false") then "bool"
   else w.type) = "bool"

def witnessRef (w : WitnessValue) : String := "witness::" ++ upperStr w.name

/-- The argument-collection loop of `generateMainFunction`: boolean-typed
witnesses in recorded order, stopping the count at the parameter count. -/
def collectBoolArgs : List WitnessValue → Nat → Nat → List String
  | [], _, _ => []
  | w :: rest, cnt, cap =>
    if isBoolWitness w ∧ cnt < cap then
      witnessRef w :: collectBoolArgs rest (cnt + 1) cap
    else collectBoolArgs rest cnt cap

/-- Does the witness's name contain `"result"` case-insensitively? -/
def hasResultName (w : WitnessValue) : Bool :=
  containsSub "result".toList (lowerStr w.name).toList

/-- Models `t.generateMainFunction` (as the list of lines it writes). -/
def generateMainLines (ws : List WitnessValue) (fs : List Function) : List String :=
  let inner : List String :=
    match ws.find? hasResultName with
    | some w => ["    assert!(" ++ witnessRef w ++ ");"]
    | none =>
      match fs.getLast? with
      | some mainFunc =>
        let args := collectBoolArgs ws 0 mainFunc.parameters.length
        if args.length = mainFunc.parameters.length then
          ["    assert!(" ++ mainFunc.name ++ "(" ++
            String.intercalate ", " args ++ "));"]
        else ["    assert!(true);"]
      | none => ["    assert!(true);"]
  ["fn main() \x7b"] ++ inner ++ ["\x7d"]

/-- Models `t.generateCode` (as the list of lines it writes). -/
def generateLines (r : AnalyzeResult) : List String :=
  ["mod witness \x7b"] ++ r.witnessValues.map witnessLine ++ ["\x7d"] ++
    ["mod param \x7b"] ++ r.constants.map constantLine ++ ["\x7d"] ++ [""] ++
    (r.functions.map functionLines).flatten ++
    generateMainLines r.witnessValues r.functions

/-- Models the output accumulation of `t.writeLine`: every line followed by
a newline. -/
def renderLines (lines : List String) : String :=
  String.join (lines.map fun ln => ln ++ "\n")

/-! ## The validator (`pkg/compiler`: `validateGoCode`, `goValidator.visit`)
over the parsed tree as `ast.Inspect` walks it. -/

mutual
/-- Tree nodes with the shapes `goValidator.visit` distinguishes;
`otherNode` is every other `ast.Node` (the visitor just recurses).
`sliceType` is an `*ast.ArrayType` with `Len == nil`; `arrayTypeN` one with
a length expression. -/
inductive VNode where
  | identN (name : String)
  | forStmt (children : VNodes)
  | rangeStmt (children : VNodes)
  | goStmt (children : VNodes)
  | chanType (children : VNodes)
  | interfaceType (children : VNodes)
  | mapType (children : VNodes)
  | sliceType (elt : VNode)
  | arrayTypeN (len : VNode) (elt : VNode)
  | callExpr (fn : VNode) (args : VNodes)
  | typeSpec (ty : VNode)
  | otherNode (children : VNodes)

/-- A sibling list of nodes. -/
inductive VNodes where
  | vnil
  | vcons (head : VNode) (tail : VNodes)
end

def isInterfaceNode : VNode → Bool
  | .interfaceType _ => true
  | _ => false

/-- The `make(...)` argument check of the `*ast.CallExpr` branch of
`goValidator.visit`. -/
def makeCheckErrs (fn : VNode) (args : VNodes) : List String :=
  match fn with
  | .identN name =>
    if name = "make" then
      match args with
      | .vcons a _ =>
        match a with
        | .mapType _ => ["maps are not supported in Simplicity"]
        | .chanType _ => ["channels are not supported in Simplicity"]
        | .sliceType _ => ["slices are not supported, use fixed-size arrays"]
        | _ => []
      | .vnil => []
    else []
  | _ => []

mutual
/-- `ast.Inspect file validator.visit`: diagnostics in visit order.  A
branch of `visit` that returns `false` stops the descent into that node's
children, so nothing below a flagged node is collected. -/
def inspectNode : VNode → List String
  | .identN _ => []
  | .forStmt _ => ["loops are not supported in Simplicity"]
  | .rangeStmt _ => ["loops are not supported in Simplicity"]
  | .goStmt _ => ["goroutines are not supported in Simplicity"]
  | .chanType _ => ["channels are not supported in Simplicity"]
  | .interfaceType _ => ["interfaces are not supported in Simplicity"]
  | .mapType _ => ["maps are not supported in Simplicity"]
  | .sliceType _ => ["slices are not supported, use fixed-size arrays"]
  | .arrayTypeN len elt => inspectNode len ++ inspectNode elt
  | .callExpr fn args => makeCheckErrs fn args ++ inspectNode fn ++ inspectVNodes args
  | .typeSpec ty =>
    (if isInterfaceNode ty then ["interfaces are not supported in Simplicity"]
     else []) ++ inspectNode ty
  | .otherNode children => inspectVNodes children

def inspectVNodes : VNodes → List String
  | .vnil => []
  | .vcons n rest => inspectNode n ++ inspectVNodes rest
end

/-- Models `c.validateGoCode`: success, or one combined failure joining
every collected diagnostic with newlines. -/
def validateGoCode (tree : VNode) : Except String Unit :=
  let errs := inspectNode tree
  if errs.isEmpty then .ok ()
  else .error ("unsupported Go features detected:\n" ++ String.intercalate "\n" errs)

mutual
/-- Does the tree use only supported constructs (no loop/range, goroutine,
channel, interface, map, or slice node anywhere)? -/
def supportedOnly : VNode → Bool
  | .identN _ => true
  | .forStmt _ => false
  | .rangeStmt _ => false
  | .goStmt _ => false
  | .chanType _ => false
  | .interfaceType _ => false
  | .mapType _ => false
  | .sliceType _ => false
  | .arrayTypeN len elt => supportedOnly len && supportedOnly elt
  | .callExpr fn args => supportedOnly fn && supportedOnlyList args
  | .typeSpec ty => supportedOnly ty
  | .otherNode children => supportedOnlyList children

def supportedOnlyList : VNodes → Bool
  | .vnil => true
  | .vcons n rest => supportedOnly n && supportedOnlyList rest
end

/-! ## The pipeline (`Transpiler.ToSimplicityHL`, `Compiler.Compile`). -/

/-- The mutable fields of a `Transpiler` (the type mapper it also holds is
a fixed table, identical for every instance `New` creates). -/
structure TranspilerState where
  output : String
  witnessValues : List WitnessValue
  constants : List Constant
  functions : List Function

/-- The state `transpiler.New()` creates, and the state `ToSimplicityHL`
resets to on entry. -/
def initialTranspiler : TranspilerState :=
  { output := "", witnessValues := [], constants := [], functions := [] }

/-- A parsed `*ast.File`, exposing the two views the pipeline consumes: the
full node tree the validator walks, and the top-level declaration list the
transpiler reads. -/
structure GoFile where
  vtree : VNode
  decls : List Decl

/-- Models `t.ToSimplicityHL`: reset all accumulated state, analyze, then
generate.  Returns the final state, the output text, and the error
(`none` for success); on failure the returned text is `""`. -/
def ToSimplicityHL (t : TranspilerState) (file : GoFile) :
    TranspilerState × String × Option String :=
  let t0 : TranspilerState :=
    { t with output := "", witnessValues := [], constants := [], functions := [] }
  match analyzeCode file.decls with
  | .error e => (t0, "", some ("code analysis failed: " ++ e))
  | .ok r =>
    let out := renderLines (generateLines r)
    ({ output := out, witnessValues := r.witnessValues,
       constants := r.constants, functions := r.functions }, out, none)

/-- Compiler configuration (`pkg/compiler.Config`). -/
structure Config where
  target : String
  debug : Bool

/-- Models `c.Compile` after the external parse step: `none` stands for a
parse failure of the source text.  Returns the output text and the error. -/
def Compile (cfg : Config) (t : TranspilerState) (parsed : Option GoFile) :
    String × Option String :=
  match parsed with
  | none => ("", some "failed to parse Go source")
  | some file =>
    match validateGoCode file.vtree with
    | .error e => ("", some ("Go code validation failed: " ++ e))
    | .ok _ =>
      if cfg.target = "simplicityhl" then (ToSimplicityHL t file).2
      else if cfg.target = "simplicity" then
        ("", some "direct Simplicity compilation not yet implemented")
      else ("", some ("unsupported target: " ++ cfg.target))

/-! ## Claim C2: folding of the relational and equality operators -/

/-- C2 (counterexample): the claim says all six relational/equality
operators fold to the exact boolean-literal result; `!=` has no case in the
switch, so `1 != 1` folds to the fallback `"true"` instead of `"false"`. -/
theorem c2_neq_not_folded_counterexample :
    evaluateBinaryExpr .neq (.basicLit "1") (.basicLit "1") = .ok "true" ∧
      evaluateBinaryExpr .neq (.basicLit "1") (.basicLit "1") ≠
        .ok (formatBool (decide ((1 : Int) ≠ 1))) := by
  constructor
  · rfl
  · intro hcontra
    rw [show evaluateBinaryExpr .neq (.basicLit "1") (.basicLit "1") = .ok "true"
      from rfl] at hcontra
    rw [show formatBool (decide ((1 : Int) ≠ 1)) = "false" from rfl] at hcontra
    injection hcontra with hs
    exact absurd hs (by decide)

/-- C2 (amended): for two integer-literal operands, the five handled
comparison operators (`>`, `<`, `>=`, `<=`, `==`) fold to the exact
boolean-literal string of the comparison; `!=` is not handled and falls
through to the fallback `"true"`. -/
theorem c2_relational_folding (a b : String) (x y : Int)
    (ha : parseInt64 a = some x) (hb : parseInt64 b = some y) :
    evaluateBinaryExpr .gtr (.basicLit a) (.basicLit b) =
      .ok (formatBool (decide (x > y))) ∧
    evaluateBinaryExpr .lss (.basicLit a) (.basicLit b) =
      .ok (formatBool (decide (x < y))) ∧
    evaluateBinaryExpr .geq (.basicLit a) (.basicLit b) =
      .ok (formatBool (decide (x ≥ y))) ∧
    evaluateBinaryExpr .leq (.basicLit a) (.basicLit b) =
      .ok (formatBool (decide (x ≤ y))) ∧
    evaluateBinaryExpr .eql (.basicLit a) (.basicLit b) =
      .ok (formatBool (decide (x = y))) ∧
    evaluateBinaryExpr .neq (.basicLit a) (.basicLit b) = .ok "true" := by
  refine ⟨?_, ?_, ?_, ?_, ?_, ?_⟩ <;>
    simp [evaluateBinaryExpr, evaluateExpression, foldBinary, ha, hb]

/-- Witness for `c2_relational_folding` at the concrete operands
`1000` and `0`. -/
theorem c2_relational_folding_witness :
    evaluateBinaryExpr .gtr (.basicLit "1000") (.basicLit "0") =
      .ok (formatBool (decide ((1000 : Int) > 0))) ∧
    evaluateBinaryExpr .neq (.basicLit "1000") (.basicLit "0") = .ok "true" :=
  ⟨(c2_relational_folding "1000" "0" 1000 0 rfl rfl).1,
   (c2_relational_folding "1000" "0" 1000 0 rfl rfl).2.2.2.2.2⟩

/-! ## Claim C6: folding of the arithmetic operators -/

/-- C6 (counterexample): the claim says folding yields the exact integer
result; Go `int64` addition wraps, so `9223372036854775807 + 1` folds to
`-9223372036854775808` rather than the exact sum. -/
theorem c6_overflow_counterexample :
    evaluateBinaryExpr .add (.basicLit "9223372036854775807") (.basicLit "1") =
      .ok "-9223372036854775808" ∧
    evaluateBinaryExpr .add (.basicLit "9223372036854775807") (.basicLit "1") ≠
      .ok (formatInt64 ((9223372036854775807 : Int) + 1)) := by
  constructor
  · rfl
  · intro hcontra
    rw [show evaluateBinaryExpr .add (.basicLit "9223372036854775807") (.basicLit "1") =
        .ok "-9223372036854775808" from rfl] at hcontra
    rw [show formatInt64 ((9223372036854775807 : Int) + 1) = "9223372036854775808"
      from rfl] at hcontra
    injection hcontra with hs
    exact absurd hs (by decide)

/-- C6 (amended): for two integer-literal operands the evaluator folds
add/subtract/multiply/divide to the exact result modulo two's-complement
64-bit wrapping (exact whenever the mathematical result fits in `int64`);
division by a zero literal is not folded and yields the fallback `"true"`;
and no operator ever produces an error. -/
theorem c6_arith_folding (a b : String) (x y : Int)
    (ha : parseInt64 a = some x) (hb : parseInt64 b = some y) :
    evaluateBinaryExpr .add (.basicLit a) (.basicLit b) =
      .ok (formatInt64 (wrap64 (x + y))) ∧
    evaluateBinaryExpr .sub (.basicLit a) (.basicLit b) =
      .ok (formatInt64 (wrap64 (x - y))) ∧
    evaluateBinaryExpr .mul (.basicLit a) (.basicLit b) =
      .ok (formatInt64 (wrap64 (x * y))) ∧
    (y ≠ 0 → evaluateBinaryExpr .quo (.basicLit a) (.basicLit b) =
      .ok (formatInt64 (wrap64 (Int.tdiv x y)))) ∧
    (y = 0 → evaluateBinaryExpr .quo (.basicLit a) (.basicLit b) = .ok "true") ∧
    (∀ op : BinOp, isOkE (evaluateBinaryExpr op (.basicLit a) (.basicLit b)) = true) := by
  refine ⟨?_, ?_, ?_, ?_, ?_, fun op => foldBinary_isOk op _ _⟩
  · simp [evaluateBinaryExpr, evaluateExpression, foldBinary, ha, hb]
  · simp [evaluateBinaryExpr, evaluateExpression, foldBinary, ha, hb]
  · simp [evaluateBinaryExpr, evaluateExpression, foldBinary, ha, hb]
  · intro hy
    simp [evaluateBinaryExpr, evaluateExpression, foldBinary, ha, hb, hy]
  · intro hy
    simp [evaluateBinaryExpr, evaluateExpression, foldBinary, ha, hb, hy]

/-- Witness for `c6_arith_folding` at the concrete operands `40` and `2`. -/
theorem c6_arith_folding_witness :
    evaluateBinaryExpr .add (.basicLit "40") (.basicLit "2") =
      .ok (formatInt64 (wrap64 ((40 : Int) + 2))) ∧
    evaluateBinaryExpr .quo (.basicLit "40") (.basicLit "2") =
      .ok (formatInt64 (wrap64 (Int.tdiv (40 : Int) 2))) :=
  ⟨(c6_arith_folding "40" "2" 40 2 rfl rfl).1,
   (c6_arith_folding "40" "2" 40 2 rfl rfl).2.2.2.1 (by decide)⟩

/-! ## Claim C7: the bit-width table -/

/-- Is the string one the `GetBitSize` switch recognizes: a fixed-width
name, the unit type, or a bracketed semicolon-separated two-part array
shape whose count parses as an integer? -/
def recognizedWidth (s : String) : Bool :=
  (builtinBits s.toList).isSome ||
    (match s.toList with
     | [] => false
     | c :: rest =>
       decide (c = '[' ∧ ';' ∈ s.toList) &&
         (match splitSemi rest.dropLast with
          | [_, p1] => (parseInt64 ⟨trimSpace p1⟩).isSome
          | _ => false))

/-- C7: `GetBitSize` matches the fixed reference table (`bool` = 1,
`u8` = 8, `u16` = 16, `u32` = 32, `u64` = 64), `byte` maps to `u8` in the
type mapper, the unit type gives 0, and every string the switch does not
recognize gives 0.  (`GetBitSize` is a total function in this model, so it
never raises.) -/
theorem c7_bitwidth_table :
    GetBitSize "bool" = 1 ∧ GetBitSize "u8" = 8 ∧ GetBitSize "u16" = 16 ∧
    GetBitSize "u32" = 32 ∧ GetBitSize "u64" = 64 ∧
    MapGoType (.identT "byte") = .ok "u8" ∧
    GetBitSize "()" = 0 ∧
    ∀ s : String, recognizedWidth s = false → GetBitSize s = 0 := by
  refine ⟨rfl, rfl, rfl, rfl, rfl, rfl, rfl, ?_⟩
  intro s hs
  unfold recognizedWidth at hs
  rw [Bool.or_eq_false_iff] at hs
  obtain ⟨hb, hm⟩ := hs
  have hbn : builtinBits s.toList = none := by
    cases hbo : builtinBits s.toList with
    | none => rfl
    | some w => rw [hbo] at hb; simp at hb
  unfold GetBitSize
  cases hl : s.toList with
  | nil =>
    rw [hl] at hbn
    simp [getBitSizeFuel, hbn]
  | cons c rest =>
    rw [hl] at hbn hm
    dsimp only at hm
    simp only [getBitSizeFuel, hbn]
    by_cases hpre : c = '[' ∧ ';' ∈ c :: rest
    · rw [if_pos hpre]
      rw [decide_eq_true hpre, Bool.true_and] at hm
      cases hsp : splitSemi rest.dropLast with
      | nil => simp [hsp]
      | cons p0 t0 =>
        cases t0 with
        | nil => simp [hsp]
        | cons p1 t1 =>
          cases t1 with
          | cons _ _ => simp [hsp]
          | nil =>
            rw [hsp] at hm
            dsimp only at hm
            have hpn : parseInt64 ⟨trimSpace p1⟩ = none := by
              cases hpo : parseInt64 ⟨trimSpace p1⟩ with
              | none => rfl
              | some v => rw [hpo] at hm; simp at hm
            simp [hsp, hpn]
    · rw [if_neg hpre]

/-- Witness for the default branch of `c7_bitwidth_table` at an
unrecognized type string. -/
theorem c7_bitwidth_table_witness :
    recognizedWidth "simfony" = false ∧ GetBitSize "simfony" = 0 :=
  ⟨rfl, c7_bitwidth_table.2.2.2.2.2.2.2 "simfony" rfl⟩

/-! ## Claim C10: assignment statements in the entry function -/

theorem analyzeMainStmts_append (ws : List WitnessValue) (s1 s2 : List Stmt) :
    analyzeMainStmts ws (s1 ++ s2) =
      match analyzeMainStmts ws s1 with
      | .error e => .error e
      | .ok ws' => analyzeMainStmts ws' s2 := by
  induction s1 generalizing ws with
  | nil => rfl
  | cons s rest ih =>
    simp only [List.cons_append, analyzeMainStmts]
    cases analyzeMainStmt ws s with
    | error e => rfl
    | ok ws' => exact ih ws'

/-- C10: every assignment statement with one left-hand identifier and one
right-hand expression appends a deferred-type (`"auto"`) witness with the
evaluated value, whatever the assignment token is — so reassignments append
a second witness of the same name (duplicate names possible), shown at a
concrete reassignment of `x`. -/
theorem c10_assignments_append_witnesses :
    (∀ (ws : List WitnessValue) (stmts : List Stmt) (tok : AsgTok)
        (x : String) (e : GoExpr),
      analyzeMainFunction ws (stmts ++ [.assignStmt tok [.identE x] [e]]) =
        (analyzeMainFunction ws stmts).map
          (fun l => l ++ [⟨toSnakeCase x, "auto", evalStr e⟩])) ∧
    analyzeMainFunction []
        [.assignStmt .defineTok [.identE "x"] [.basicLit "1"],
         .assignStmt .assignTok [.identE "x"] [.basicLit "2"]] =
      .ok [⟨"x", "auto", "1"⟩, ⟨"x", "auto", "2"⟩] := by
  constructor
  · intro ws stmts tok x e
    unfold analyzeMainFunction
    rw [analyzeMainStmts_append]
    cases h : analyzeMainStmts ws stmts with
    | error e' => rfl
    | ok ws' =>
      show analyzeMainStmts ws' [.assignStmt tok [.identE x] [e]] = _
      simp only [analyzeMainStmts, analyzeMainStmt, evaluateExpression_eq_ok e,
        Except.map]
  · rfl

/-! ## Claim C5: synthesized bodies of non-entry functions -/

/-- The per-statement pattern the body translator acts on: a return
statement with a single result that is either a strictly-greater-than
comparison with an identifier left side (match body) or a bare identifier
(name body). -/
def returnBodyOf : Stmt → Option String
  | .returnStmt [r] =>
    match r with
    | .binaryExpr .gtr x _ =>
      if extractIdentifier x ≠ "" then
        some (matchBodyStr (toSnakeCase (extractIdentifier x)))
      else none
    | .identE name => some (toSnakeCase name)
    | _ => none
  | _ => none

theorem analyzeFunctionBody_cons (s : Stmt) (rest : List Stmt) :
    analyzeFunctionBody (s :: rest) =
      match returnBodyOf s with
      | some b => b
      | none => analyzeFunctionBody rest := by
  cases s with
  | declStmt tok specs => rfl
  | assignStmt tok lhs rhs => rfl
  | otherStmt => rfl
  | returnStmt results =>
    match results with
    | [] => rfl
    | r1 :: r2 :: rs => rfl
    | [r] =>
      cases r with
      | basicLit v => rfl
      | callExpr fn args => rfl
      | unaryExpr u x => rfl
      | identE n => rfl
      | otherExpr => rfl
      | binaryExpr op x y =>
        cases op with
        | gtr =>
          by_cases hx : extractIdentifier x = ""
          · simp [analyzeFunctionBody, returnBodyOf, hx]
          · simp [analyzeFunctionBody, returnBodyOf, hx]
        | add => rfl
        | sub => rfl
        | mul => rfl
        | quo => rfl
        | lss => rfl
        | geq => rfl
        | leq => rfl
        | eql => rfl
        | neq => rfl
        | otherOp => rfl

/-- C5 (counterexample): the claim says a body containing a
greater-than-comparison return gets the two-arm match body; the scan stops
at the first matching return, so `[return x; return y > 0]` yields the
bare-identifier body `"x"`, not the match on `y`. -/
theorem c5_first_return_counterexample :
    analyzeFunctionBody
        [.returnStmt [.identE "x"],
         .returnStmt [.binaryExpr .gtr (.identE "y") (.basicLit "0")]] = "x" ∧
      "x" ≠ matchBodyStr "y" := by
  exact ⟨rfl, by decide⟩

/-- C5 (amended): the body is decided by the first return statement with a
single result whose expression matches (greater-than comparison with an
identifier left side → two-arm match body; bare identifier → its snake-case
name); if no return statement matches, the placeholder `"true"`. -/
theorem c5_function_body_first_match (stmts : List Stmt) :
    analyzeFunctionBody stmts = ((stmts.findSome? returnBodyOf).getD "true") := by
  induction stmts with
  | nil => rfl
  | cons s rest ih =>
    rw [analyzeFunctionBody_cons, List.findSome?_cons]
    cases returnBodyOf s with
    | some b => rfl
    | none => exact ih

/-! ## Claim C1: entry-point generation -/

/-- The claim's description of the generated entry point: a recorded
witness whose name contains `"result"` (case-insensitively) gives a single
assertion referencing it; otherwise the last recorded function is invoked
with the boolean-typed witnesses in recorded order, collected up to — and
required to exactly reach — its parameter count; in every other case the
always-true fallback assertion. -/
def claimMainLines (ws : List WitnessValue) (fs : List Function) : List String :=
  match ws.find? hasResultName with
  | some w => ["fn main() \x7b", "    assert!(" ++ witnessRef w ++ ");", "\x7d"]
  | none =>
    match fs.getLast? with
    | some f =>
      let boolWs := ws.filter isBoolWitness
      if f.parameters.length ≤ boolWs.length then
        ["fn main() \x7b",
         "    assert!(" ++ f.name ++ "(" ++
           String.intercalate ", " ((boolWs.map witnessRef).take f.parameters.length) ++
           "));",
         "\x7d"]
      else ["fn main() \x7b", "    assert!(true);", "\x7d"]
    | none => ["fn main() \x7b", "    assert!(true);", "\x7d"]

theorem collectBoolArgs_eq (ws : List WitnessValue) :
    ∀ (cnt cap : Nat),
      collectBoolArgs ws cnt cap =
        ((ws.filter isBoolWitness).map witnessRef).take (cap - cnt) := by
  induction ws with
  | nil => intro cnt cap; simp [collectBoolArgs]
  | cons w rest ih =>
    intro cnt cap
    by_cases hw : isBoolWitness w
    · by_cases hc : cnt < cap
      · have hcap : cap - cnt = (cap - (cnt + 1)) + 1 := by omega
        simp only [collectBoolArgs, hw, hc, and_self, if_true, if_pos,
          List.filter_cons_of_pos hw, List.map_cons, hcap, List.take_succ_cons]
        rw [ih]
      · have hcap : cap - cnt = 0 := by omega
        simp only [collectBoolArgs, List.filter_cons_of_pos hw, List.map_cons,
          hcap, List.take_zero]
        rw [if_neg (by intro hcontra; exact hc hcontra.2), ih]
        simp [hcap]
    · have hwf : isBoolWitness w = false := by
        cases hb : isBoolWitness w
        · rfl
        · exact absurd hb hw
      simp only [collectBoolArgs]
      rw [if_neg (by intro hcontra; exact hw hcontra.1), ih,
        List.filter_cons_of_neg (by simp [hwf])]

/-- C1: `generateMainFunction` emits exactly the claimed entry point (and
in particular the generated `main` always contains exactly one assertion
line, of the form `    assert!(…);`). -/
theorem c1_entry_point (ws : List WitnessValue) (fs : List Function) :
    generateMainLines ws fs = claimMainLines ws fs ∧
    ∃ s, generateMainLines ws fs =
      ["fn main() \x7b", "    assert!(" ++ s ++ ");", "\x7d"] := by
  unfold generateMainLines claimMainLines
  cases hfind : ws.find? hasResultName with
  | some w =>
    exact ⟨rfl, ⟨witnessRef w, rfl⟩⟩
  | none =>
    cases hlast : fs.getLast? with
    | none => exact ⟨rfl, ⟨"true", rfl⟩⟩
    | some f =>
      dsimp only
      have hcoll := collectBoolArgs_eq ws 0 f.parameters.length
      rw [Nat.sub_zero] at hcoll
      rw [hcoll]
      have hcond :
          ((((ws.filter isBoolWitness).map witnessRef).take
              f.parameters.length).length = f.parameters.length)
            ↔ f.parameters.length ≤ (ws.filter isBoolWitness).length := by
        rw [List.length_take, List.length_map]
        omega
      by_cases h2 : f.parameters.length ≤ (ws.filter isBoolWitness).length
      · rw [if_pos (hcond.mpr h2), if_pos h2]
        refine ⟨rfl, ⟨f.name ++ "(" ++
          String.intercalate ", "
            (((ws.filter isBoolWitness).map witnessRef).take f.parameters.length)
          ++ ")", ?_⟩⟩
        simp [String.append_assoc]
      · rw [if_neg (fun hh => h2 (hcond.mp hh)), if_neg h2]
        exact ⟨rfl, ⟨"true", rfl⟩⟩

/-! ## Claim C3: bit widths of mapped fixed-size arrays -/

/-- C3 (counterexample): the claim includes nested arrays, but for
`[3][2]uint8` the mapped string `"[[u8; 2]; 3]"` splits on `';'` into three
parts, so `GetBitSize` returns 0 instead of
`GetBitSize "[u8; 2]" * 3 = 48`. -/
theorem c3_nested_array_counterexample :
    MapGoType (.arrayT (.litInt "3") (.arrayT (.litInt "2") (.identT "uint8"))) =
      .ok "[[u8; 2]; 3]" ∧
    GetBitSize "[[u8; 2]; 3]" = 0 ∧
    GetBitSize "[u8; 2]" * 3 = 48 := ⟨rfl, rfl, rfl⟩

/-- C3 (amended): when `MapGoType` succeeds on the fixed-size array type
`[N]E` and the mapped element string contains no `';'` (in particular `E`
is not itself an array-shaped type) and carries no surrounding white space,
`GetBitSize` of the mapped array string equals `GetBitSize` of the mapped
element string times `N`, computed in Go's wrapping two's-complement 64-bit
`int` arithmetic (the exact product whenever it fits in `int64`). -/
theorem c3_array_bitwidth (E : GoType) (lenStr es t : String) (n : Int)
    (hes : MapGoType E = .ok es)
    (hn : parseInt64 lenStr = some n)
    (hsemi : ';' ∉ es.toList)
    (htrim : trimSpace es.toList = es.toList)
    (ht : MapGoType (.arrayT (.litInt lenStr) E) = .ok t) :
    GetBitSize t = wrap64 (GetBitSize es * n) := by
  have ht' : "[" ++ es ++ "; " ++ formatInt64 n ++ "]" = t := by
    unfold MapGoType at ht
    rw [hes] at ht
    dsimp only at ht
    unfold evaluateArrayLength at ht
    dsimp only at ht
    rw [hn] at ht
    dsimp only at ht
    exact Except.ok.inj ht
  subst ht'
  have hrange := parseInt64_range hn
  have hFsemi : ';' ∉ (formatInt64 n).toList := by
    intro hmem
    rcases mem_formatInt64_data hmem with h | h
    · exact absurd h (by decide)
    · exact absurd h.2 (by decide)
  have hFtrim : trimSpace (formatInt64 n).toList = (formatInt64 n).toList := by
    apply trimSpace_eq_self
    intro c hc
    rcases mem_formatInt64_data hc with h | h
    · subst h; decide
    · exact isSpaceGo_false_of_digit h
  have hdata : ("[" ++ es ++ "; " ++ formatInt64 n ++ "]").toList
      = '[' :: (es.toList ++ (';' :: ' ' :: ((formatInt64 n).toList ++ [']']))) := by
    show ("[" ++ es ++ "; " ++ formatInt64 n ++ "]").data = _
    simp only [String.data_append]
    simp [List.append_assoc]
  have hrest : es.toList ++ (';' :: ' ' :: ((formatInt64 n).toList ++ [']']))
      = (es.toList ++ ';' :: ' ' :: (formatInt64 n).toList) ++ [']'] := by
    simp [List.append_assoc]
  have hsplit : splitSemi (es.toList ++ ';' :: ' ' :: (formatInt64 n).toList)
      = [es.toList, ' ' :: (formatInt64 n).toList] := by
    rw [splitSemi_append _ hsemi]
    rw [splitSemi_of_not_mem]
    intro hmem
    rcases List.mem_cons.mp hmem with h | h
    · exact absurd h (by decide)
    · exact hFsemi h
  have hcount : parseInt64 ⟨trimSpace (' ' :: (formatInt64 n).toList)⟩ = some n := by
    rw [trimSpace_cons_space, hFtrim]
    show parseInt64 (formatInt64 n) = some n
    exact parseInt64_formatInt64 hrange.1 hrange.2
  have hlen : es.toList.length < ("[" ++ es ++ "; " ++ formatInt64 n ++ "]").length := by
    show _ < ("[" ++ es ++ "; " ++ formatInt64 n ++ "]").data.length
    rw [show ("[" ++ es ++ "; " ++ formatInt64 n ++ "]").data
        = '[' :: (es.toList ++ (';' :: ' ' :: ((formatInt64 n).toList ++ [']']))) from hdata]
    simp only [List.length_cons, List.length_append]
    omega
  have hmain : GetBitSize ("[" ++ es ++ "; " ++ formatInt64 n ++ "]")
      = wrap64 (getBitSizeFuel ("[" ++ es ++ "; " ++ formatInt64 n ++ "]").length
          es.toList * n) := by
    show getBitSizeFuel (("[" ++ es ++ "; " ++ formatInt64 n ++ "]").length + 1)
        ("[" ++ es ++ "; " ++ formatInt64 n ++ "]").toList = _
    rw [hdata, getBitSizeFuel_succ]
    rw [show builtinBits
        ('[' :: (es.toList ++ (';' :: ' ' :: ((formatInt64 n).toList ++ [']'])))) =
        none from rfl]
    dsimp only
    rw [if_pos ⟨by trivial, by simp⟩]
    rw [hrest, List.dropLast_concat, hsplit]
    dsimp only
    rw [hcount]
    dsimp only
    rw [htrim]
  rw [hmain,
    getBitSizeFuel_mono _ (es.toList.length + 1) es.toList hlen (Nat.lt_succ_self _)]
  rfl

/-- Witness for `c3_array_bitwidth` at the concrete type `[4]uint8`,
mapped to `"[u8; 4]"`. -/
theorem c3_array_bitwidth_witness :
    GetBitSize "[u8; 4]" = wrap64 (GetBitSize "u8" * 4) :=
  c3_array_bitwidth (.identT "uint8") "4" "u8" "[u8; 4]" 4 rfl rfl
    (by decide) rfl rfl

/-! ## Claim C4: the validator -/

/-- The six diagnostic messages the validator can emit. -/
def validatorMessages : List String :=
  ["loops are not supported in Simplicity",
   "goroutines are not supported in Simplicity",
   "channels are not supported in Simplicity",
   "interfaces are not supported in Simplicity",
   "maps are not supported in Simplicity",
   "slices are not supported, use fixed-size arrays"]

theorem supportedOnly_false_of_interface {ty : VNode}
    (h : isInterfaceNode ty = true) : supportedOnly ty = false := by
  cases ty <;> first | rfl | simp [isInterfaceNode] at h

theorem makeCheckErrs_eq_nil_of_supported {fn : VNode} {args : VNodes}
    (h : supportedOnlyList args = true) : makeCheckErrs fn args = [] := by
  cases fn with
  | identN name =>
    unfold makeCheckErrs
    dsimp only
    by_cases hn : name = "make"
    · rw [if_pos hn]
      cases args with
      | vnil => rfl
      | vcons a rest =>
        cases a <;>
          first
            | rfl
            | (exfalso; simp [supportedOnlyList, supportedOnly] at h)
    · rw [if_neg hn]
  | forStmt c => rfl
  | rangeStmt c => rfl
  | goStmt c => rfl
  | chanType c => rfl
  | interfaceType c => rfl
  | mapType c => rfl
  | sliceType e => rfl
  | arrayTypeN len elt => rfl
  | callExpr f a => rfl
  | typeSpec ty => rfl
  | otherNode c => rfl

mutual
theorem inspectNode_eq_nil_iff :
    ∀ t : VNode, inspectNode t = [] ↔ supportedOnly t = true
  | .identN _ => by simp [inspectNode, supportedOnly]
  | .forStmt c => by simp [inspectNode, supportedOnly]
  | .rangeStmt c => by simp [inspectNode, supportedOnly]
  | .goStmt c => by simp [inspectNode, supportedOnly]
  | .chanType c => by simp [inspectNode, supportedOnly]
  | .interfaceType c => by simp [inspectNode, supportedOnly]
  | .mapType c => by simp [inspectNode, supportedOnly]
  | .sliceType e => by simp [inspectNode, supportedOnly]
  | .arrayTypeN len elt => by
    have h1 := inspectNode_eq_nil_iff len
    have h2 := inspectNode_eq_nil_iff elt
    simp [inspectNode, supportedOnly, h1, h2]
  | .callExpr fn args => by
    have h1 := inspectNode_eq_nil_iff fn
    have h2 := inspectVNodes_eq_nil_iff args
    simp only [inspectNode, supportedOnly, List.append_eq_nil, Bool.and_eq_true,
      h1, h2]
    constructor
    · rintro ⟨⟨_, hfn⟩, hargs⟩
      exact ⟨hfn, hargs⟩
    · rintro ⟨hfn, hargs⟩
      exact ⟨⟨makeCheckErrs_eq_nil_of_supported hargs, hfn⟩, hargs⟩
  | .typeSpec ty => by
    have h1 := inspectNode_eq_nil_iff ty
    simp only [inspectNode, supportedOnly, List.append_eq_nil, h1]
    constructor
    · rintro ⟨_, hty⟩
      exact hty
    · intro hty
      refine ⟨?_, hty⟩
      by_cases hi : isInterfaceNode ty = true
      · rw [supportedOnly_false_of_interface hi] at hty
        exact absurd hty (by simp)
      · simp [hi]
  | .otherNode c => by
    have h := inspectVNodes_eq_nil_iff c
    simp [inspectNode, supportedOnly, h]

theorem inspectVNodes_eq_nil_iff :
    ∀ l : VNodes, inspectVNodes l = [] ↔ supportedOnlyList l = true
  | .vnil => by simp [inspectVNodes, supportedOnlyList]
  | .vcons n rest => by
    have h1 := inspectNode_eq_nil_iff n
    have h2 := inspectVNodes_eq_nil_iff rest
    simp [inspectVNodes, supportedOnlyList, h1, h2]
end

theorem makeCheckErrs_messages (fn : VNode) (args : VNodes) :
    ∀ m ∈ makeCheckErrs fn args, m ∈ validatorMessages := by
  cases fn with
  | identN name =>
    unfold makeCheckErrs
    dsimp only
    by_cases hn : name = "make"
    · rw [if_pos hn]
      cases args with
      | vnil => simp
      | vcons a rest =>
        cases a <;> simp [validatorMessages]
    · rw [if_neg hn]; simp
  | forStmt c => simp [makeCheckErrs]
  | rangeStmt c => simp [makeCheckErrs]
  | goStmt c => simp [makeCheckErrs]
  | chanType c => simp [makeCheckErrs]
  | interfaceType c => simp [makeCheckErrs]
  | mapType c => simp [makeCheckErrs]
  | sliceType e => simp [makeCheckErrs]
  | arrayTypeN len elt => simp [makeCheckErrs]
  | callExpr f a => simp [makeCheckErrs]
  | typeSpec ty => simp [makeCheckErrs]
  | otherNode c => simp [makeCheckErrs]

mutual
theorem inspectNode_messages :
    ∀ t : VNode, ∀ m ∈ inspectNode t, m ∈ validatorMessages
  | .identN _ => by simp [inspectNode]
  | .forStmt c => by simp [inspectNode, validatorMessages]
  | .rangeStmt c => by simp [inspectNode, validatorMessages]
  | .goStmt c => by simp [inspectNode, validatorMessages]
  | .chanType c => by simp [inspectNode, validatorMessages]
  | .interfaceType c => by simp [inspectNode, validatorMessages]
  | .mapType c => by simp [inspectNode, validatorMessages]
  | .sliceType e => by simp [inspectNode, validatorMessages]
  | .arrayTypeN len elt => by
    intro m hm
    rcases List.mem_append.mp hm with h | h
    · exact inspectNode_messages len m h
    · exact inspectNode_messages elt m h
  | .callExpr fn args => by
    intro m hm
    rcases List.mem_append.mp hm with h | h
    · rcases List.mem_append.mp h with h | h
      · exact makeCheckErrs_messages fn args m h
      · exact inspectNode_messages fn m h
    · exact inspectVNodes_messages args m h
  | .typeSpec ty => by
    intro m hm
    rcases List.mem_append.mp hm with h | h
    · by_cases hi : isInterfaceNode ty = true
      · rw [if_pos hi] at h
        simp only [List.mem_singleton] at h
        subst h
        simp [validatorMessages]
      · rw [if_neg hi] at h
        simp at h
    · exact inspectNode_messages ty m h
  | .otherNode c => fun m hm => inspectVNodes_messages c m hm

theorem inspectVNodes_messages :
    ∀ l : VNodes, ∀ m ∈ inspectVNodes l, m ∈ validatorMessages
  | .vnil => by simp [inspectVNodes]
  | .vcons n rest => by
    intro m hm
    rcases List.mem_append.mp hm with h | h
    · exact inspectNode_messages n m h
    · exact inspectVNodes_messages rest m h
end

mutual
/-- Does the tree contain a map-type node anywhere (also below flagged
constructs)? -/
def containsMapNode : VNode → Bool
  | .mapType _ => true
  | .identN _ => false
  | .forStmt c => containsMapNodes c
  | .rangeStmt c => containsMapNodes c
  | .goStmt c => containsMapNodes c
  | .chanType c => containsMapNodes c
  | .interfaceType c => containsMapNodes c
  | .sliceType e => containsMapNode e
  | .arrayTypeN len elt => containsMapNode len || containsMapNode elt
  | .callExpr fn args => containsMapNode fn || containsMapNodes args
  | .typeSpec ty => containsMapNode ty
  | .otherNode c => containsMapNodes c

def containsMapNodes : VNodes → Bool
  | .vnil => false
  | .vcons n rest => containsMapNode n || containsMapNodes rest
end

/-- C4 (counterexample): the claim says the combined failure enumerates
every occurrence of a disallowed construct (full traversal); the visitor
stops descending at a flagged node, so a map type nested inside a loop is
not reported — only the loop is. -/
theorem c4_pruning_counterexample :
    inspectNode (.forStmt (.vcons (.mapType .vnil) .vnil)) =
      ["loops are not supported in Simplicity"] ∧
    containsMapNode (.forStmt (.vcons (.mapType .vnil) .vnil)) = true ∧
    "maps are not supported in Simplicity" ∉
      inspectNode (.forStmt (.vcons (.mapType .vnil) .vnil)) := by
  refine ⟨rfl, rfl, ?_⟩
  decide

/-- C4 (amended): the validator returns success exactly on trees using only
supported constructs, and otherwise one combined failure; every emitted
diagnostic is one of the six fixed messages.  The traversal prunes the
subtree below each flagged node, so nested occurrences are not enumerated
(see the counterexample). -/
theorem c4_validator_flags (t : VNode) :
    (validateGoCode t = .ok () ↔ supportedOnly t = true) ∧
    (∀ m ∈ inspectNode t, m ∈ validatorMessages) := by
  refine ⟨?_, inspectNode_messages t⟩
  unfold validateGoCode
  constructor
  · intro h
    by_cases he : (inspectNode t).isEmpty
    · exact (inspectNode_eq_nil_iff t).mp (List.isEmpty_iff.mp he)
    · rw [if_neg he] at h
      exact absurd h (by simp)
  · intro h
    have hnil := (inspectNode_eq_nil_iff t).mpr h
    simp [hnil]

/-- Witness for `c4_validator_flags`: the loop diagnostic of a concrete
rejected tree is among the six fixed messages. -/
theorem c4_validator_flags_witness :
    "loops are not supported in Simplicity" ∈ validatorMessages :=
  (c4_validator_flags (.forStmt .vnil)).2 "loops are not supported in Simplicity"
    (by decide)

/-! ## Claim C8: no partial output on failure -/

/-- C8: whenever `ToSimplicityHL` or `Compile` fails, the returned output
text is empty — the caller never receives partial generated output together
with an error. -/
theorem c8_no_partial_output (t : TranspilerState) (file : GoFile)
    (cfg : Config) (parsed : Option GoFile) :
    ((ToSimplicityHL t file).2.2 ≠ none → (ToSimplicityHL t file).2.1 = "") ∧
    ((Compile cfg t parsed).2 ≠ none → (Compile cfg t parsed).1 = "") := by
  constructor
  · intro herr
    unfold ToSimplicityHL at herr ⊢
    cases h : analyzeCode file.decls with
    | error e => rfl
    | ok r => rw [h] at herr; exact absurd rfl herr
  · intro herr
    unfold Compile at herr ⊢
    cases parsed with
    | none => rfl
    | some file' =>
      dsimp only at herr ⊢
      cases hv : validateGoCode file'.vtree with
      | error e => rfl
      | ok u =>
        rw [hv] at herr
        dsimp only at herr ⊢
        by_cases ht : cfg.target = "simplicityhl"
        · rw [if_pos ht] at herr ⊢
          unfold ToSimplicityHL at herr ⊢
          cases hA : analyzeCode file'.decls with
          | error e => rfl
          | ok r => rw [hA] at herr; exact absurd rfl herr
        · rw [if_neg ht] at herr ⊢
          by_cases ht2 : cfg.target = "simplicity"
          · rw [if_pos ht2]
          · rw [if_neg ht2]

/-- A parsed file the validator rejects (it contains a map type). -/
def c8ExampleFile : GoFile :=
  { vtree := .otherNode (.vcons (.mapType .vnil) .vnil)
  , decls := [] }

/-- Witness for `c8_no_partial_output`: a concrete failing compile returns
an error together with the empty output text. -/
theorem c8_no_partial_output_witness :
    (Compile ⟨"simplicityhl", false⟩ initialTranspiler (some c8ExampleFile)).2 ≠ none ∧
    (Compile ⟨"simplicityhl", false⟩ initialTranspiler (some c8ExampleFile)).1 = "" :=
  ⟨by decide,
   (c8_no_partial_output initialTranspiler c8ExampleFile
      ⟨"simplicityhl", false⟩ (some c8ExampleFile)).2 (by decide)⟩

/-! ## Claim C9: determinism and history independence -/

/-- C9: the output (text and error) of `ToSimplicityHL` is independent of
the transpiler state the call starts from — the state is reset on entry —
so equal input trees give byte-identical output on any instance, in any
order, after any prior calls (second conjunct: a call after a prior call
equals a call on a fresh instance). -/
theorem c9_determinism (t₁ t₂ : TranspilerState) (file prior : GoFile) :
    (ToSimplicityHL t₁ file).2 = (ToSimplicityHL t₂ file).2 ∧
    (ToSimplicityHL (ToSimplicityHL t₁ prior).1 file).2 =
      (ToSimplicityHL initialTranspiler file).2 := by
  constructor
  · unfold ToSimplicityHL
    cases analyzeCode file.decls <;> rfl
  · unfold ToSimplicityHL
    cases analyzeCode file.decls <;> cases analyzeCode prior.decls <;> rfl

end GoSimplicity
